import Mathlib

set_option maxHeartbeats 1000000
set_option maxRecDepth 8192

/-!
Verification of the smart card client background script
(src/example_js_smart_card_client_app/src/background.js).

Byte sequences are modelled as List Nat (every element a byte value below
256 where the JavaScript arrays are Uint8Array).  The transport is modelled
as an oracle: the list of responses returned to successive transmit calls.
A transport failure is modelled as Option.none.
-/

namespace SmartCardClient

/-- APDU constants of the source file. -/
def SELECT_FILE_APDU : List Nat :=
  [0x00, 0xA4, 0x04, 0x00, 0x06, 0xD2, 0x76, 0x00, 0x01, 0x24, 0x01, 0x00]

/-- Command to read cardholder data. -/
def GET_DATA_CARDHOLDER_APDU : List Nat := [0x00, 0xCA, 0x00, 0x65, 0x00]

/-- Command to read application related data. -/
def GET_DATA_APPLICATION_RELATED_DATA_APDU : List Nat :=
  [0x00, 0xCA, 0x00, 0x6E, 0x00]

/-- Command to read the public key url. -/
def GET_DATA_URL_APDU : List Nat := [0x00, 0xCA, 0x5F, 0x50, 0x00]

/-- Command to read the digital signature counter. -/
def GET_DATA_DSC_APDU : List Nat := [0x00, 0xCA, 0x00, 0x7A, 0x00]

/-- Header of the verify PIN command. -/
def VERIFY_APDU : List Nat := [0x00, 0x20, 0x00, 0x81]

/-- Header of the compute digital signature command. -/
def PSO_CDS_APDU : List Nat := [0x00, 0x2A, 0x9E, 0x9A]

/-- DigestInfo template preceding the hash in the sign command. -/
def RSA_SHA1_DIGEST_INFO : List Nat :=
  [0x30, 0x51, 0x30, 0x0D, 0x06, 0x09, 0x60, 0x86, 0x48, 0x01, 0x65, 0x03,
   0x04, 0x02, 0x03, 0x05, 0x00, 0x04, 0x40]

/-- Continuation command issued on a MoreData status word. -/
def GET_RESPONSE_APDU : List Nat := [0x00, 0xC0, 0x00, 0x00, 0x00]

/-- Translation of concatenateUint8: concatenation of a list of byte arrays. -/
def concatenateUint8 (arrays : List (List Nat)) : List Nat :=
  arrays.flatten

/-- Translation of uint16ToBytes: DataView.setUint16 writes the value
big-endian after coercing it with ToUint16, that is reduction modulo 65536
(numBits can be negative in the source, hence the Int argument). -/
def uint16ToBytes (v : Int) : List Nat :=
  [(v % 65536).toNat / 256, (v % 65536).toNat % 256]

/-- Translation of uint32ToBytes: DataView.setUint32 writes the value
big-endian after reduction modulo 2 to the 32. -/
def uint32ToBytes (v : Nat) : List Nat :=
  [v % 4294967296 / 16777216, v % 4294967296 / 65536 % 256,
   v % 4294967296 / 256 % 256, v % 4294967296 % 256]

/-- Semantic classes of a status word, from the specification. -/
inductive StatusClass where
  | success : StatusClass
  | moreData (n : Nat) : StatusClass
  | other (sw1 sw2 : Nat) : StatusClass
deriving DecidableEq

/-- Status word interpretation used by getData: the 0x61 check comes first,
then the 0x90 0x00 check, anything else is an applet specific condition. -/
def classify (sw1 sw2 : Nat) : StatusClass :=
  if sw1 = 0x61 then StatusClass.moreData sw2
  else if sw1 = 0x90 ∧ sw2 = 0x00 then StatusClass.success
  else StatusClass.other sw1 sw2

/-- Translation of getData.  The first argument is the transport oracle: the
responses that successive transmit calls will return; getData consumes one
oracle entry per continuation transmit it issues.  The result carries the
assembled data, the number of continuation transmits issued and the
unconsumed part of the oracle; none models a transport failure. -/
def getData : List (List Nat) → List Nat → Option (List Nat × Nat × List (List Nat))
  | oracle, response =>
    let data := response.take (response.length - 2)
    let returnCode := response.drop (response.length - 2)
    if returnCode.get? 0 = some 0x61 then
      match oracle with
      | [] => none
      | next :: rest =>
        match getData rest next with
        | none => none
        | some (dataContinued, k, rem) => some (data ++ dataContinued, k + 1, rem)
    else
      some (data, 0, oracle)

/-- One command round of the session: transmit the command (consuming the
head of the oracle) and assemble the response with getData.  Returns the
assembled data, the full list of transmitted commands (the command itself
followed by one GET_RESPONSE_APDU per continuation) and the rest of the
oracle. -/
def executeCommand (command : List Nat) (oracle : List (List Nat)) :
    Option (List Nat × List (List Nat) × List (List Nat)) :=
  match oracle with
  | [] => none
  | response :: rest =>
    match getData rest response with
    | none => none
    | some (data, k, rem) =>
      some (data, command :: List.replicate k GET_RESPONSE_APDU, rem)

/-- Translation of parseDSC. -/
def parseDSC (data : List Nat) : Nat :=
  if ¬(data.length = 7 ∧ data.get? 2 = some 0x93 ∧ data.get? 3 = some 0x03) then 0
  else data.getD 6 0 + 0x100 * data.getD 5 0 + 0x10000 * data.getD 4 0

/-- Body of the utf8ToBytes loop: a string is modelled as its list of UTF-16
code units (the values of charCodeAt).  A code unit in the surrogate range
consumes the following unit as well; when the surrogate is the final unit,
charCodeAt returns NaN in the source and NaN masked with 0x3ff is 0. -/
def utf8Push : List Nat → List Nat
  | [] => []
  | charcode :: rest =>
    if charcode < 0x80 then charcode :: utf8Push rest
    else if charcode < 0x800 then
      (0xc0 ||| (charcode >>> 6)) :: (0x80 ||| (charcode &&& 0x3f)) :: utf8Push rest
    else if charcode < 0xd800 ∨ 0xe000 ≤ charcode then
      (0xe0 ||| (charcode >>> 12)) :: (0x80 ||| ((charcode >>> 6) &&& 0x3f)) ::
        (0x80 ||| (charcode &&& 0x3f)) :: utf8Push rest
    else
      match rest with
      | [] =>
        let cp := 0x10000 + (((charcode &&& 0x3ff) <<< 10) ||| 0)
        [0xf0 ||| (cp >>> 18), 0x80 ||| ((cp >>> 12) &&& 0x3f),
          0x80 ||| ((cp >>> 6) &&& 0x3f), 0x80 ||| (cp &&& 0x3f)]
      | next :: rest2 =>
        let cp := 0x10000 + (((charcode &&& 0x3ff) <<< 10) ||| (next &&& 0x3ff))
        (0xf0 ||| (cp >>> 18)) :: (0x80 ||| ((cp >>> 12) &&& 0x3f)) ::
          (0x80 ||| ((cp >>> 6) &&& 0x3f)) :: (0x80 ||| (cp &&& 0x3f)) :: utf8Push rest2

/-- Translation of utf8ToBytes: the plain array starts with str.length and
collects the encoded bytes; the final Uint8Array construction coerces every
element with ToUint8, that is reduction modulo 256. -/
def utf8ToBytes (str : List Nat) : List Nat :=
  (str.length :: utf8Push str).map (fun v => v % 256)

/-- Translation of the scan loop of extractFingerprints: fingerprintIndex
starts at -1 and is set to i + 2 at the first position i where the byte is
0xC5 and the following byte is 60; later matches only produce a log line and
leave the index unchanged. -/
def fpIndexLoop (blob : List Nat) : Nat → Nat → Int → Int
  | 0, _, fingerprintIndex => fingerprintIndex
  | fuel + 1, i, fingerprintIndex =>
    if i < blob.length then
      fpIndexLoop blob fuel (i + 1)
        (if blob.get? i = some 0xC5 ∧ blob.get? (i + 1) = some 60 ∧ fingerprintIndex = -1
          then (i : Int) + 2 else fingerprintIndex)
    else fingerprintIndex

/-- Translation of extractFingerprints; the fuel argument of the loop is the
blob length, which the loop condition never exceeds. -/
def extractFingerprints (applicationData : List Nat) : List Nat :=
  let fingerprintIndex := fpIndexLoop applicationData applicationData.length 0 (-1)
  if fingerprintIndex = -1 then []
  else (applicationData.drop fingerprintIndex.toNat).take 60

/-- Translation of the leading zero bit loop of completeSignature: numBits
is decremented once per leading unset bit, most significant bit first, and
the loop breaks entirely at the first set bit. -/
def numBitsLoop : List Nat → Int → Int
  | [], numBits => numBits
  | b :: rest, numBits =>
    if b &&& (1 <<< 7) ≠ 0 then numBits
    else if b &&& (1 <<< 6) ≠ 0 then numBits - 1
    else if b &&& (1 <<< 5) ≠ 0 then numBits - 2
    else if b &&& (1 <<< 4) ≠ 0 then numBits - 3
    else if b &&& (1 <<< 3) ≠ 0 then numBits - 4
    else if b &&& (1 <<< 2) ≠ 0 then numBits - 5
    else if b &&& (1 <<< 1) ≠ 0 then numBits - 6
    else if b &&& (1 <<< 0) ≠ 0 then numBits - 7
    else numBitsLoop rest (numBits - 8)

/-- Translation of completeSignature: the draft packet, the two byte
big-endian effective bit length field starting from the nominal 2048 bits,
and the raw signature unchanged. -/
def completeSignature (packet rawSignature : List Nat) : List Nat :=
  concatenateUint8 [packet, uint16ToBytes (numBitsLoop rawSignature 2048), rawSignature]

/-- Fixed packet header byte (old format, tag 2, two octet length). -/
def PACKET_HEADER : List Nat := [0x89]

/-- Fixed signature packet metadata (version, type, key algorithm, hash
algorithm). -/
def SIGNATURE_PACKET_HEADER : List Nat := [0x04, 0x00, 0x01, 0x0A]

/-- Length header of the hashed subpacket block. -/
def HASHED_SUBPACKETS_HEADER : List Nat := [0x00, 0x06]

/-- Header of the creation time subpacket. -/
def CREATION_TIME_SUBPACKET_HEADER : List Nat := [0x05, 0x02]

/-- Length header of the unhashed subpacket block. -/
def UNHASHED_SUBPACKETS_HEADER : List Nat := [0x00, 0x0A]

/-- Header of the issuer subpacket. -/
def ISSUER_SUBPACKET_HEADER : List Nat := [0x09, 0x10]

/-- Hashed part of the signature packet for a given creation time. -/
def hashedPart (time : Nat) : List Nat :=
  concatenateUint8 [SIGNATURE_PACKET_HEADER, HASHED_SUBPACKETS_HEADER,
    CREATION_TIME_SUBPACKET_HEADER, uint32ToBytes time]

/-- Unhashed part of the signature packet: subpacket headers, the issuer
bytes and the final two bytes of the digest. -/
def unhashedPart (hashBytes issuerBytes : List Nat) : List Nat :=
  concatenateUint8 [UNHASHED_SUBPACKETS_HEADER, ISSUER_SUBPACKET_HEADER,
    issuerBytes, hashBytes.drop (hashBytes.length - 2)]

/-- Translation of createSignaturePackage.  The digest function is a
parameter: the source calls the external goog.crypt.Sha512 library, which is
outside this repository; only the digest bytes matter here. -/
def createSignaturePackage (sha512 : List Nat → List Nat)
    (data issuerBytes : List Nat) (time : Nat) : List Nat × List Nat :=
  let hashedPartV := hashedPart time
  let hashBytes := sha512 (data ++ hashedPartV)
  let unhashedPartV := unhashedPart hashBytes issuerBytes
  let packetBody := concatenateUint8 [hashedPartV, unhashedPartV]
  let packetHeader := concatenateUint8 [PACKET_HEADER,
    uint16ToBytes ((packetBody.length : Int) + 258)]
  (concatenateUint8 [packetHeader, packetBody], hashBytes)

/-- Code units of the fixed message signed by the work function. -/
def MESSAGE : List Nat :=
  [0x48, 0x65, 0x6C, 0x6C, 0x6F, 0x20, 0x59, 0x75, 0x62, 0x69, 0x4B, 0x65,
   0x79, 0x21]

/-- Trace semantics of the work function after a successful connect, with
the PIN dialog assumed successful (pinBytes is the encoded PIN) and the
digest function and creation time as parameters.  The result is the list of
transmitted APDU commands; none models a transport failure.  The first
oracle entry answers the select command; when its leading bytes are not
0x90 0x00 the session stops after the select command. -/
def workTrace (sha512 : List Nat → List Nat) (time : Nat) (pinBytes : List Nat)
    (oracle : List (List Nat)) : Option (List (List Nat)) :=
  match oracle with
  | [] => none
  | status :: oracle1 =>
    if status.get? 0 = some 0x90 ∧ status.get? 1 = some 0x00 then
      match executeCommand GET_DATA_CARDHOLDER_APDU oracle1 with
      | none => none
      | some (_, cmds1, oracle2) =>
        match executeCommand GET_DATA_URL_APDU oracle2 with
        | none => none
        | some (_, cmds2, oracle3) =>
          match executeCommand GET_DATA_APPLICATION_RELATED_DATA_APDU oracle3 with
          | none => none
          | some (appData, cmds3, oracle4) =>
            let sigKeyId := ((extractFingerprints appData).drop 12).take 8
            match executeCommand (VERIFY_APDU ++ pinBytes) oracle4 with
            | none => none
            | some (_, cmds4, oracle5) =>
              match executeCommand GET_DATA_DSC_APDU oracle5 with
              | none => none
              | some (_, cmds5, oracle6) =>
                let packageAndHash := createSignaturePackage sha512 MESSAGE sigKeyId time
                let digestInfo := RSA_SHA1_DIGEST_INFO ++ packageAndHash.2
                let signCommand :=
                  PSO_CDS_APDU ++ [digestInfo.length % 256] ++ digestInfo ++ [0x00]
                match executeCommand signCommand oracle6 with
                | none => none
                | some (_, cmds6, oracle7) =>
                  match executeCommand GET_DATA_DSC_APDU oracle7 with
                  | none => none
                  | some (_, cmds7, _) =>
                    some (SELECT_FILE_APDU ::
                      (cmds1 ++ cmds2 ++ cmds3 ++ cmds4 ++ cmds5 ++ cmds6 ++ cmds7))
    else
      some [SELECT_FILE_APDU]

/-- Specification side: the eight bits of a byte, most significant first. -/
def byteBits (b : Nat) : List Bool :=
  [b.testBit 7, b.testBit 6, b.testBit 5, b.testBit 4,
   b.testBit 3, b.testBit 2, b.testBit 1, b.testBit 0]

/-- Specification side: the big-endian bit stream of a byte sequence. -/
def bitStream (bytes : List Nat) : List Bool :=
  bytes.flatMap byteBits

/-- Specification side: the number of leading zero bits of a byte sequence
read big-endian. -/
def leadingZeroBits (bytes : List Nat) : Nat :=
  ((bitStream bytes).takeWhile (fun bit => !bit)).length


/-! Helper lemmas. -/

theorem land_pow_eq_zero_iff (b k : Nat) : b &&& (1 <<< k) = 0 ↔ b.testBit k = false := by
  rw [Nat.shiftLeft_eq, one_mul, Nat.and_two_pow]
  cases h : b.testBit k <;> simp [h]

theorem numBitsLoop_eq (sig : List Nat) : ∀ n : Int,
    numBitsLoop sig n = n - leadingZeroBits sig := by
  induction sig with
  | nil => intro n; simp [numBitsLoop, leadingZeroBits, bitStream]
  | cons b rest ih =>
    intro n
    have hb : bitStream (b :: rest) = byteBits b ++ bitStream rest := by
      simp [bitStream]

    by_cases c7 : b &&& (1 <<< 7) = 0
    · have t7 : b.testBit 7 = false := (land_pow_eq_zero_iff b 7).mp c7
      by_cases c6 : b &&& (1 <<< 6) = 0
      · have t6 : b.testBit 6 = false := (land_pow_eq_zero_iff b 6).mp c6
        by_cases c5 : b &&& (1 <<< 5) = 0
        · have t5 : b.testBit 5 = false := (land_pow_eq_zero_iff b 5).mp c5
          by_cases c4 : b &&& (1 <<< 4) = 0
          · have t4 : b.testBit 4 = false := (land_pow_eq_zero_iff b 4).mp c4
            by_cases c3 : b &&& (1 <<< 3) = 0
            · have t3 : b.testBit 3 = false := (land_pow_eq_zero_iff b 3).mp c3
              by_cases c2 : b &&& (1 <<< 2) = 0
              · have t2 : b.testBit 2 = false := (land_pow_eq_zero_iff b 2).mp c2
                by_cases c1 : b &&& (1 <<< 1) = 0
                · have t1 : b.testBit 1 = false := (land_pow_eq_zero_iff b 1).mp c1
                  by_cases c0 : b &&& (1 <<< 0) = 0
                  · have t0 : b.testBit 0 = false := (land_pow_eq_zero_iff b 0).mp c0
                    have hlz : leadingZeroBits (b :: rest) = 8 + leadingZeroBits rest := by
                      simp [leadingZeroBits, hb, byteBits, t7, t6, t5, t4, t3, t2, t1, t0]
                      omega
                    have hloop : numBitsLoop (b :: rest) n = numBitsLoop rest (n - 8) := by
                      simp only [numBitsLoop]
                      rw [if_neg (not_not_intro c7)]; rw [if_neg (not_not_intro c6)]; rw [if_neg (not_not_intro c5)]; rw [if_neg (not_not_intro c4)]; rw [if_neg (not_not_intro c3)]; rw [if_neg (not_not_intro c2)]; rw [if_neg (not_not_intro c1)]; rw [if_neg (not_not_intro c0)]
                    rw [hloop, ih (n - 8), hlz]
                    push_cast
                    ring
                  · have t0 : b.testBit 0 = true := by
                      cases hq : b.testBit 0
                      · exact absurd ((land_pow_eq_zero_iff b 0).mpr hq) c0
                      · rfl
                    have hlz : leadingZeroBits (b :: rest) = 7 := by
                      simp [leadingZeroBits, hb, byteBits, t7, t6, t5, t4, t3, t2, t1, t0]
                    have hloop : numBitsLoop (b :: rest) n = n - 7 := by
                      simp only [numBitsLoop]
                      rw [if_neg (not_not_intro c7)]; rw [if_neg (not_not_intro c6)]; rw [if_neg (not_not_intro c5)]; rw [if_neg (not_not_intro c4)]; rw [if_neg (not_not_intro c3)]; rw [if_neg (not_not_intro c2)]; rw [if_neg (not_not_intro c1)]; rw [if_pos c0]
                    rw [hloop, hlz]
                    push_cast
                    ring
                · have t1 : b.testBit 1 = true := by
                    cases hq : b.testBit 1
                    · exact absurd ((land_pow_eq_zero_iff b 1).mpr hq) c1
                    · rfl
                  have hlz : leadingZeroBits (b :: rest) = 6 := by
                    simp [leadingZeroBits, hb, byteBits, t7, t6, t5, t4, t3, t2, t1]
                  have hloop : numBitsLoop (b :: rest) n = n - 6 := by
                    simp only [numBitsLoop]
                    rw [if_neg (not_not_intro c7)]; rw [if_neg (not_not_intro c6)]; rw [if_neg (not_not_intro c5)]; rw [if_neg (not_not_intro c4)]; rw [if_neg (not_not_intro c3)]; rw [if_neg (not_not_intro c2)]; rw [if_pos c1]
                  rw [hloop, hlz]
                  push_cast
                  ring
              · have t2 : b.testBit 2 = true := by
                  cases hq : b.testBit 2
                  · exact absurd ((land_pow_eq_zero_iff b 2).mpr hq) c2
                  · rfl
                have hlz : leadingZeroBits (b :: rest) = 5 := by
                  simp [leadingZeroBits, hb, byteBits, t7, t6, t5, t4, t3, t2]
                have hloop : numBitsLoop (b :: rest) n = n - 5 := by
                  simp only [numBitsLoop]
                  rw [if_neg (not_not_intro c7)]; rw [if_neg (not_not_intro c6)]; rw [if_neg (not_not_intro c5)]; rw [if_neg (not_not_intro c4)]; rw [if_neg (not_not_intro c3)]; rw [if_pos c2]
                rw [hloop, hlz]
                push_cast
                ring
            · have t3 : b.testBit 3 = true := by
                cases hq : b.testBit 3
                · exact absurd ((land_pow_eq_zero_iff b 3).mpr hq) c3
                · rfl
              have hlz : leadingZeroBits (b :: rest) = 4 := by
                simp [leadingZeroBits, hb, byteBits, t7, t6, t5, t4, t3]
              have hloop : numBitsLoop (b :: rest) n = n - 4 := by
                simp only [numBitsLoop]
                rw [if_neg (not_not_intro c7)]; rw [if_neg (not_not_intro c6)]; rw [if_neg (not_not_intro c5)]; rw [if_neg (not_not_intro c4)]; rw [if_pos c3]
              rw [hloop, hlz]
              push_cast
              ring
          · have t4 : b.testBit 4 = true := by
              cases hq : b.testBit 4
              · exact absurd ((land_pow_eq_zero_iff b 4).mpr hq) c4
              · rfl
            have hlz : leadingZeroBits (b :: rest) = 3 := by
              simp [leadingZeroBits, hb, byteBits, t7, t6, t5, t4]
            have hloop : numBitsLoop (b :: rest) n = n - 3 := by
              simp only [numBitsLoop]
              rw [if_neg (not_not_intro c7)]; rw [if_neg (not_not_intro c6)]; rw [if_neg (not_not_intro c5)]; rw [if_pos c4]
            rw [hloop, hlz]
            push_cast
            ring
        · have t5 : b.testBit 5 = true := by
            cases hq : b.testBit 5
            · exact absurd ((land_pow_eq_zero_iff b 5).mpr hq) c5
            · rfl
          have hlz : leadingZeroBits (b :: rest) = 2 := by
            simp [leadingZeroBits, hb, byteBits, t7, t6, t5]
          have hloop : numBitsLoop (b :: rest) n = n - 2 := by
            simp only [numBitsLoop]
            rw [if_neg (not_not_intro c7)]; rw [if_neg (not_not_intro c6)]; rw [if_pos c5]
          rw [hloop, hlz]
          push_cast
          ring
      · have t6 : b.testBit 6 = true := by
          cases hq : b.testBit 6
          · exact absurd ((land_pow_eq_zero_iff b 6).mpr hq) c6
          · rfl
        have hlz : leadingZeroBits (b :: rest) = 1 := by
          simp [leadingZeroBits, hb, byteBits, t7, t6]
        have hloop : numBitsLoop (b :: rest) n = n - 1 := by
          simp only [numBitsLoop]
          rw [if_neg (not_not_intro c7)]; rw [if_pos c6]
        rw [hloop, hlz]
        push_cast
        ring
    · have t7 : b.testBit 7 = true := by
        cases hq : b.testBit 7
        · exact absurd ((land_pow_eq_zero_iff b 7).mpr hq) c7
        · rfl
      have hlz : leadingZeroBits (b :: rest) = 0 := by
        simp [leadingZeroBits, hb, byteBits, t7]
      have hloop : numBitsLoop (b :: rest) n = n := by
        simp only [numBitsLoop]
        rw [if_pos c7]
      rw [hloop, hlz]
      push_cast
      ring

/-- Replicated zero bytes never hit a set bit, so the loop runs through all
of them, removing eight bits per byte. -/
theorem numBitsLoop_replicate_zero (n : Nat) : ∀ m : Int,
    numBitsLoop (List.replicate n 0) m = m - 8 * n := by
  induction n with
  | zero => intro m; simp [numBitsLoop]
  | succ k ih =>
    intro m
    rw [List.replicate_succ]
    have hzero : numBitsLoop (0 :: List.replicate k 0) m =
        numBitsLoop (List.replicate k 0) (m - 8) := by
      simp only [numBitsLoop]
      rw [if_neg (by decide), if_neg (by decide), if_neg (by decide),
        if_neg (by decide), if_neg (by decide), if_neg (by decide),
        if_neg (by decide), if_neg (by decide)]
    rw [hzero, ih (m - 8)]
    push_cast
    ring

/-- A byte with value one breaks the loop at its lowest bit, after seven
decrements. -/
theorem numBitsLoop_one (l : List Nat) (m : Int) :
    numBitsLoop (1 :: l) m = m - 7 := by
  simp only [numBitsLoop]
  rw [if_neg (by decide), if_neg (by decide), if_neg (by decide),
    if_neg (by decide), if_neg (by decide), if_neg (by decide),
    if_neg (by decide), if_pos (by decide)]

/-- A byte with its most significant bit set breaks the loop immediately. -/
theorem numBitsLoop_ff (l : List Nat) (m : Int) :
    numBitsLoop (0xFF :: l) m = m := by
  simp only [numBitsLoop]
  rw [if_pos (by decide)]

/-- A zero byte falls through the whole chain. -/
theorem numBitsLoop_zero (l : List Nat) (m : Int) :
    numBitsLoop (0 :: l) m = numBitsLoop l (m - 8) := by
  simp only [numBitsLoop]
  rw [if_neg (by decide), if_neg (by decide), if_neg (by decide),
    if_neg (by decide), if_neg (by decide), if_neg (by decide),
    if_neg (by decide), if_neg (by decide)]

/-! Claim theorems. -/

/-- Claim C2, counterexample: on the raw signature 0x00 0x01 0xFF the
bit-length finalization computes 2033, not 2039 as the claim states; the two
byte field of the completed signature carries 0x07 0xF1. -/
theorem claim_C2_counterexample :
    numBitsLoop [0x00, 0x01, 0xFF] 2048 = 2033 ∧
    (completeSignature [] [0x00, 0x01, 0xFF]).take 2 = [0x07, 0xF1] ∧
    (2033 : Int) ≠ 2039 := by
  refine ⟨by decide, by decide, by decide⟩

/-- Claim C2, amended: a raw signature starting 0x00 0x01 0xFF loses eight
bits for the zero byte and seven more for the seven leading zero bits of the
0x01 byte, yielding 2033; a raw signature starting with 0xFF keeps 2048. -/
theorem claim_C2_theorem :
    (∀ rest : List Nat, numBitsLoop (0x00 :: 0x01 :: 0xFF :: rest) 2048 = 2033) ∧
    (∀ rest : List Nat, numBitsLoop (0xFF :: rest) 2048 = 2048) := by
  constructor
  · intro rest
    rw [numBitsLoop_zero, numBitsLoop_one]
    norm_num
  · intro rest
    rw [numBitsLoop_ff]

/-- Claim C3: for every raw signature the effective bit length computed by
the completeSignature loop equals 2048 minus the number of leading zero bits
of the sequence read big-endian, and on an all zero input the scan runs
through every byte, removing eight bits per byte. -/
theorem claim_C3_theorem :
    (∀ rawSignature : List Nat,
      numBitsLoop rawSignature 2048 = 2048 - leadingZeroBits rawSignature) ∧
    (∀ n : Nat, numBitsLoop (List.replicate n 0) 2048 = 2048 - 8 * n) := by
  exact ⟨fun sig => numBitsLoop_eq sig 2048, fun n => numBitsLoop_replicate_zero n 2048⟩

/-- Claim C4: the status word classification maps every pair to exactly one
of the three classes: Success exactly on 0x90 0x00, MoreData exactly when
the first byte is 0x61, Other exactly otherwise. -/
theorem claim_C4_theorem : ∀ sw1 sw2 : Nat,
    (classify sw1 sw2 = StatusClass.success ↔ (sw1 = 0x90 ∧ sw2 = 0x00)) ∧
    (classify sw1 sw2 = StatusClass.moreData sw2 ↔ sw1 = 0x61) ∧
    (classify sw1 sw2 = StatusClass.other sw1 sw2 ↔
      (sw1 ≠ 0x61 ∧ ¬(sw1 = 0x90 ∧ sw2 = 0x00))) := by
  intro sw1 sw2
  unfold classify
  split_ifs with h1 h2
  · simp_all
  · simp_all
  · simp_all

/-- Claim C6: completeSignature returns the draft packet, then the two byte
bit-length field, then the raw signature verbatim, so its length is the
draft length plus two plus the raw signature length. -/
theorem claim_C6_theorem : ∀ packet rawSignature : List Nat,
    completeSignature packet rawSignature =
      packet ++ uint16ToBytes (numBitsLoop rawSignature 2048) ++ rawSignature ∧
    (completeSignature packet rawSignature).length =
      packet.length + 2 + rawSignature.length := by
  intro packet rawSignature
  constructor
  · simp [completeSignature, concatenateUint8]
  · simp [completeSignature, concatenateUint8, uint16ToBytes]
    omega

/-- Claim C10: parseDSC is total; on a seven byte response with 0x93 0x03 at
offsets two and three it returns the three byte big-endian counter, on
everything else it returns zero, and a true counter value of zero is
indistinguishable from the malformed-input sentinel. -/
theorem claim_C10_theorem :
    (∀ a b x y z : Nat,
      parseDSC [a, b, 0x93, 0x03, x, y, z] = 0x10000 * x + 0x100 * y + z) ∧
    (∀ data : List Nat,
      ¬(data.length = 7 ∧ data.get? 2 = some 0x93 ∧ data.get? 3 = some 0x03) →
        parseDSC data = 0) ∧
    parseDSC [0, 0, 0x93, 0x03, 0, 0, 0] = 0 ∧ parseDSC [] = 0 := by
  refine ⟨?_, ?_, by decide, by decide⟩
  · intro a b x y z
    simp [parseDSC]
    ring
  · intro data h
    simp only [parseDSC, if_pos h]

/-- Claim C10, witness: the theorem applied at concrete malformed and
well-formed inputs. -/
theorem claim_C10_witness :
    parseDSC [1, 2, 3] = 0 ∧ parseDSC [0, 0, 0x93, 0x03, 1, 2, 3] = 66051 := by
  constructor
  · exact claim_C10_theorem.2.1 [1, 2, 3] (by decide)
  · rw [claim_C10_theorem.1 0 0 1 2 3]


/-- Stop case of getData: a response whose status byte is not 0x61 ends the
assembly immediately. -/
theorem getData_stop (oracle : List (List Nat)) (response : List Nat)
    (h : (response.drop (response.length - 2)).get? 0 ≠ some 0x61) :
    getData oracle response = some (response.take (response.length - 2), 0, oracle) := by
  rw [getData.eq_def]
  simp only []
  rw [if_neg h]

/-- Continuation case of getData: a response whose status byte is 0x61
consumes the next oracle entry. -/
theorem getData_cont (oracle : List (List Nat)) (response next : List Nat)
    (h : (response.drop (response.length - 2)).get? 0 = some 0x61) :
    getData (next :: oracle) response =
      match getData oracle next with
      | none => none
      | some (dataContinued, k, rem) =>
        some (response.take (response.length - 2) ++ dataContinued, k + 1, rem) := by
  rw [getData.eq_def]
  simp only []
  rw [if_pos h]

/-- Claim C5: when the first response carries status 0x61 and the
continuation response carries 0x90 0x00, the command round issues exactly
two transmits, the command itself and one GET_RESPONSE_APDU, and returns the
two payloads concatenated in order. -/
theorem claim_C5_theorem (command r1 r2 : List Nat) (rest : List (List Nat))
    (h1 : (r1.drop (r1.length - 2)).get? 0 = some 0x61)
    (h2 : r2.drop (r2.length - 2) = [0x90, 0x00]) :
    executeCommand command (r1 :: r2 :: rest) =
      some (r1.take (r1.length - 2) ++ r2.take (r2.length - 2),
        [command, GET_RESPONSE_APDU], rest) := by
  have hr2 : getData rest r2 = some (r2.take (r2.length - 2), 0, rest) := by
    apply getData_stop
    rw [h2]
    decide
  have hr1 : getData (r2 :: rest) r1 =
      some (r1.take (r1.length - 2) ++ r2.take (r2.length - 2), 1, rest) := by
    rw [getData_cont (rest) r1 r2 h1, hr2]
  simp only [executeCommand]
  rw [hr1]
  simp [List.replicate]


/-- Claim C5, witness: a concrete two response exchange. -/
theorem claim_C5_witness :
    executeCommand GET_DATA_CARDHOLDER_APDU [[1, 2, 3, 0x61, 5], [6, 7, 0x90, 0x00]] =
      some ([1, 2, 3, 6, 7], [GET_DATA_CARDHOLDER_APDU, GET_RESPONSE_APDU], []) := by
  rw [claim_C5_theorem GET_DATA_CARDHOLDER_APDU [1, 2, 3, 0x61, 5] [6, 7, 0x90, 0x00] []
    (by decide) (by decide)]
  decide

/-- Once fingerprintIndex is set to a value other than -1, the scan loop
never changes it again. -/
theorem fpIndexLoop_stuck (blob : List Nat) : ∀ fuel i : Nat, ∀ idx : Int,
    idx ≠ -1 → fpIndexLoop blob fuel i idx = idx := by
  intro fuel
  induction fuel with
  | zero =>
    intro i idx hne
    rfl
  | succ k ih =>
    intro i idx hne
    simp only [fpIndexLoop]
    by_cases hi : i < blob.length
    · rw [if_pos hi, if_neg (fun hcon => hne hcon.2.2)]
      exact ih (i + 1) idx hne
    · rw [if_neg hi]

/-- The scan loop started at i with the accumulator still -1 returns m + 2
for the first match position m at or after i. -/
theorem fpIndexLoop_first (blob : List Nat) : ∀ fuel i m : Nat,
    blob.length - i ≤ fuel → i ≤ m →
    blob.get? m = some 0xC5 → blob.get? (m + 1) = some 60 →
    (∀ j : Nat, i ≤ j → j < m → ¬(blob.get? j = some 0xC5 ∧ blob.get? (j + 1) = some 60)) →
    fpIndexLoop blob fuel i (-1) = (m : Int) + 2 := by
  intro fuel
  induction fuel with
  | zero =>
    intro i m hk him hm hm1 hfirst
    exfalso
    obtain ⟨hlt, -⟩ := List.get?_eq_some.mp hm
    omega
  | succ k ih =>
    intro i m hk him hm hm1 hfirst
    obtain ⟨hmlt, -⟩ := List.get?_eq_some.mp hm
    simp only [fpIndexLoop]
    rw [if_pos (by omega : i < blob.length)]
    by_cases hi : i = m
    · subst hi
      rw [if_pos (by exact ⟨hm, hm1, by trivial⟩)]
      exact fpIndexLoop_stuck blob k (i + 1) _ (by omega)
    · rw [if_neg (fun hcon => hfirst i (le_refl i) (by omega) ⟨hcon.1, hcon.2.1⟩)]
      exact ih (i + 1) m (by omega) (by omega) hm hm1
        (fun j hj1 hj2 => hfirst j (by omega) hj2)

/-- Claim C1, amended: extractFingerprints returns the 60 byte slice at the
first match of the 0xC5 60 tag and length pair, whether or not further
matches exist; later matches are only logged. -/
theorem claim_C1_theorem (blob : List Nat) (m : Nat)
    (hm : blob.get? m = some 0xC5) (hm1 : blob.get? (m + 1) = some 60)
    (hfirst : ∀ j : Nat, j < m →
      ¬(blob.get? j = some 0xC5 ∧ blob.get? (j + 1) = some 60)) :
    extractFingerprints blob = (blob.drop (m + 2)).take 60 := by
  have hidx : fpIndexLoop blob blob.length 0 (-1) = (m : Int) + 2 :=
    fpIndexLoop_first blob blob.length 0 m (by omega) (by omega) hm hm1
      (fun j hj1 hj2 => hfirst j hj2)
  have ht : ((m : Int) + 2).toNat = m + 2 := by omega
  simp only [extractFingerprints]
  rw [hidx, if_neg (by omega : ¬((m : Int) + 2 = -1)), ht]

/-- Claim C1, counterexample: on a blob with two matches of the pair the
operation does not report an error value; it returns the 60 byte slice at
the first match. -/
theorem claim_C1_counterexample :
    extractFingerprints
        ([0xC5, 60] ++ List.replicate 60 1 ++ [0xC5, 60] ++ List.replicate 60 2) =
      List.replicate 60 1 ∧
    extractFingerprints
        ([0xC5, 60] ++ List.replicate 60 1 ++ [0xC5, 60] ++ List.replicate 60 2) ≠ [] := by
  constructor
  · decide
  · decide

/-- Claim C1, witness: the amended theorem applied to the duplicate blob,
with the first match at position zero. -/
theorem claim_C1_witness :
    extractFingerprints
        ([0xC5, 60] ++ List.replicate 60 1 ++ [0xC5, 60] ++ List.replicate 60 2) =
      ((([0xC5, 60] ++ List.replicate 60 1 ++ [0xC5, 60] ++
        List.replicate 60 2).drop 2).take 60) := by
  have := claim_C1_theorem
    ([0xC5, 60] ++ List.replicate 60 1 ++ [0xC5, 60] ++ List.replicate 60 2) 0
    (by decide) (by decide) (fun j hj => absurd hj (Nat.not_lt_zero j))
  simpa using this


/-- Claim C7: the packet produced by createSignaturePackage starts with the
single fixed tag byte followed by the two byte big-endian total length
field, whose value is the hashed part length plus the unhashed part length
plus the exact constant 258, followed by the packet body. -/
theorem claim_C7_theorem (sha512 : List Nat → List Nat) (data issuerBytes : List Nat)
    (time : Nat) (hks : issuerBytes.length = 8)
    (hdl : (sha512 (data ++ hashedPart time)).length = 64) :
    (createSignaturePackage sha512 data issuerBytes time).1 =
      PACKET_HEADER ++
        uint16ToBytes (((hashedPart time).length +
          (unhashedPart (sha512 (data ++ hashedPart time)) issuerBytes).length + 258 : Nat)) ++
        hashedPart time ++ unhashedPart (sha512 (data ++ hashedPart time)) issuerBytes ∧
    256 * (createSignaturePackage sha512 data issuerBytes time).1.getD 1 0 +
        (createSignaturePackage sha512 data issuerBytes time).1.getD 2 0 =
      (hashedPart time).length +
        (unhashedPart (sha512 (data ++ hashedPart time)) issuerBytes).length + 258 := by
  have hh : (hashedPart time).length = 12 := by
    simp [hashedPart, concatenateUint8, SIGNATURE_PACKET_HEADER,
      HASHED_SUBPACKETS_HEADER, CREATION_TIME_SUBPACKET_HEADER, uint32ToBytes]
  have hu : (unhashedPart (sha512 (data ++ hashedPart time)) issuerBytes).length = 14 := by
    simp [unhashedPart, concatenateUint8, UNHASHED_SUBPACKETS_HEADER,
      ISSUER_SUBPACKET_HEADER, hks, hdl]
  have hbody : ((hashedPart time ++
      (unhashedPart (sha512 (data ++ hashedPart time)) issuerBytes ++ [])).length : Int) + 258 =
      (284 : Int) := by
    simp [hh, hu]
  have hpacket : (createSignaturePackage sha512 data issuerBytes time).1 =
      PACKET_HEADER ++ uint16ToBytes 284 ++ hashedPart time ++
        unhashedPart (sha512 (data ++ hashedPart time)) issuerBytes := by
    simp only [createSignaturePackage, concatenateUint8, List.flatten]
    rw [hbody]
    simp
  constructor
  · rw [hpacket, hh, hu]
    norm_num
  · rw [hpacket]
    have h16 : uint16ToBytes 284 = [1, 28] := by decide
    rw [h16, hh, hu]
    simp [PACKET_HEADER]


/-- Claim C7, witness: the theorem applied to a fixed digest function, empty
message, zero key id bytes and creation time zero. -/
theorem claim_C7_witness :
    (createSignaturePackage (fun _ => List.replicate 64 0) [] (List.replicate 8 0) 0).1 =
      PACKET_HEADER ++
        uint16ToBytes (((hashedPart 0).length +
          (unhashedPart ((fun _ => List.replicate 64 0) ([] ++ hashedPart 0))
            (List.replicate 8 0)).length + 258 : Nat)) ++
        hashedPart 0 ++
        unhashedPart ((fun _ => List.replicate 64 0) ([] ++ hashedPart 0))
          (List.replicate 8 0) ∧
    256 * (createSignaturePackage (fun _ => List.replicate 64 0) []
          (List.replicate 8 0) 0).1.getD 1 0 +
        (createSignaturePackage (fun _ => List.replicate 64 0) []
          (List.replicate 8 0) 0).1.getD 2 0 =
      (hashedPart 0).length +
        (unhashedPart ((fun _ => List.replicate 64 0) ([] ++ hashedPart 0))
          (List.replicate 8 0)).length + 258 :=
  claim_C7_theorem (fun _ => List.replicate 64 0) [] (List.replicate 8 0) 0
    (by decide) (by simp)

theorem utf8Push_length_ge (s : List Nat) : s.length ≤ (utf8Push s).length := by
  induction s using utf8Push.induct with
  | case1 => simp [utf8Push]
  | case2 c rest h ih =>
    rw [utf8Push.eq_def]
    simp only [if_pos h, List.length_cons]
    omega
  | case3 c rest h1 h2 ih =>
    rw [utf8Push.eq_def]
    simp only [if_neg h1, if_pos h2, List.length_cons]
    omega
  | case4 c rest h1 h2 h3 ih =>
    rw [utf8Push.eq_def]
    simp only [if_neg h1, if_neg h2, if_pos h3, List.length_cons]
    omega
  | case5 c h1 h2 h3 =>
    rw [utf8Push.eq_def]
    simp only [if_neg h1, if_neg h2, if_neg h3, List.length_cons]
    simp
  | case6 c h1 h2 h3 next rest2 ih =>
    rw [utf8Push.eq_def]
    simp only [if_neg h1, if_neg h2, if_neg h3, List.length_cons]
    omega

theorem utf8Push_ascii (s : List Nat) (h : ∀ c ∈ s, c < 128) : utf8Push s = s := by
  induction s with
  | nil => rfl
  | cons c rest ih =>
    rw [utf8Push.eq_def]
    simp only [if_pos (h c (by simp))]
    rw [ih (fun x hx => h x (by simp [hx]))]

theorem utf8Push_length_eq_iff (s : List Nat) :
    (utf8Push s).length = s.length ↔ ∀ c ∈ s, c < 128 := by
  constructor
  · intro hlen
    induction s using utf8Push.induct with
    | case1 => simp
    | case2 c rest h ih =>
      rw [utf8Push.eq_def] at hlen
      simp only [if_pos h, List.length_cons] at hlen
      intro x hx
      simp only [List.mem_cons] at hx
      rcases hx with rfl | hx
      · omega
      · exact ih (by omega) x hx
    | case3 c rest h1 h2 ih =>
      rw [utf8Push.eq_def] at hlen
      simp only [if_neg h1, if_pos h2, List.length_cons] at hlen
      have := utf8Push_length_ge rest
      omega
    | case4 c rest h1 h2 h3 ih =>
      rw [utf8Push.eq_def] at hlen
      simp only [if_neg h1, if_neg h2, if_pos h3, List.length_cons] at hlen
      have := utf8Push_length_ge rest
      omega
    | case5 c h1 h2 h3 =>
      rw [utf8Push.eq_def] at hlen
      simp only [if_neg h1, if_neg h2, if_neg h3, List.length_cons] at hlen
      simp at hlen
    | case6 c h1 h2 h3 next rest2 ih =>
      rw [utf8Push.eq_def] at hlen
      simp only [if_neg h1, if_neg h2, if_neg h3, List.length_cons] at hlen
      have := utf8Push_length_ge rest2
      omega
  · intro h
    rw [utf8Push_ascii s h]

/-- Every byte produced by the encoding loop is below 256 when every code
unit is a valid UTF-16 value. -/
theorem utf8Push_lt (s : List Nat) (h : ∀ c ∈ s, c < 65536) :
    ∀ b ∈ utf8Push s, b < 256 := by
  have or256 : ∀ x y : Nat, x < 256 → y < 256 → x ||| y < 256 := by
    intro x y hx hy
    have h8 : (256 : Nat) = 2 ^ 8 := by norm_num
    rw [h8] at hx hy ⊢
    exact Nat.or_lt_two_pow hx hy
  induction s using utf8Push.induct with
  | case1 => simp [utf8Push]
  | case2 c rest hc ih =>
    rw [utf8Push.eq_def]
    simp only [if_pos hc]
    intro b hb
    rcases List.mem_cons.mp hb with rfl | hb
    · omega
    · exact ih (fun x hx => h x (List.mem_cons_of_mem c hx)) b hb
  | case3 c rest h1 h2 ih =>
    rw [utf8Push.eq_def]
    simp only [if_neg h1, if_pos h2]
    intro b hb
    have hs : c >>> 6 < 256 := by
      rw [Nat.shiftRight_eq_div_pow]
      omega
    have hm : c &&& 63 < 256 := by
      have hand : (c) &&& 63 ≤ 63 := Nat.and_le_right
      omega
    rcases List.mem_cons.mp hb with rfl | hb
    · exact or256 _ _ (by omega) hs
    · rcases List.mem_cons.mp hb with rfl | hb
      · exact or256 _ _ (by omega) hm
      · exact ih (fun x hx => h x (List.mem_cons_of_mem c hx)) b hb
  | case4 c rest h1 h2 h3 ih =>
    rw [utf8Push.eq_def]
    simp only [if_neg h1, if_neg h2, if_pos h3]
    intro b hb
    have hc16 : c < 65536 := h c (by simp)
    have hs12 : c >>> 12 < 256 := by
      rw [Nat.shiftRight_eq_div_pow]
      omega
    have hm6 : (c >>> 6) &&& 63 < 256 := by
      have hand : (c >>> 6) &&& 63 ≤ 63 := Nat.and_le_right
      omega
    have hm : c &&& 63 < 256 := by
      have hand : (c) &&& 63 ≤ 63 := Nat.and_le_right
      omega
    rcases List.mem_cons.mp hb with rfl | hb
    · exact or256 _ _ (by omega) hs12
    · rcases List.mem_cons.mp hb with rfl | hb
      · exact or256 _ _ (by omega) hm6
      · rcases List.mem_cons.mp hb with rfl | hb
        · exact or256 _ _ (by omega) hm
        · exact ih (fun x hx => h x (List.mem_cons_of_mem c hx)) b hb
  | case5 c h1 h2 h3 =>
    rw [utf8Push.eq_def]
    simp only [if_neg h1, if_neg h2, if_neg h3]
    intro b hb
    have hcp : 65536 + ((c &&& 1023) <<< 10 ||| 0) < 2097152 := by
      have ha : c &&& 1023 ≤ 1023 := Nat.and_le_right
      have hsl : (c &&& 1023) <<< 10 = (c &&& 1023) * 1024 := by
        rw [Nat.shiftLeft_eq]
      simp only [Nat.or_zero]
      omega
    have hs18 : (65536 + ((c &&& 1023) <<< 10 ||| 0)) >>> 18 < 256 := by
      rw [Nat.shiftRight_eq_div_pow]
      omega
    have hm12 : ((65536 + ((c &&& 1023) <<< 10 ||| 0)) >>> 12) &&& 63 < 256 := by
      have hand : ((65536 + ((c &&& 1023) <<< 10 ||| 0)) >>> 12) &&& 63 ≤ 63 := Nat.and_le_right
      omega
    have hm6 : ((65536 + ((c &&& 1023) <<< 10 ||| 0)) >>> 6) &&& 63 < 256 := by
      have hand : ((65536 + ((c &&& 1023) <<< 10 ||| 0)) >>> 6) &&& 63 ≤ 63 := Nat.and_le_right
      omega
    have hm0 : (65536 + ((c &&& 1023) <<< 10 ||| 0)) &&& 63 < 256 := by
      have hand : (65536 + ((c &&& 1023) <<< 10 ||| 0)) &&& 63 ≤ 63 := Nat.and_le_right
      omega
    fin_cases hb
    · exact or256 _ _ (by omega) hs18
    · exact or256 _ _ (by omega) hm12
    · exact or256 _ _ (by omega) hm6
    · exact or256 _ _ (by omega) hm0
  | case6 c h1 h2 h3 next rest2 ih =>
    rw [utf8Push.eq_def]
    simp only [if_neg h1, if_neg h2, if_neg h3]
    intro b hb
    have hcp : 65536 + ((c &&& 1023) <<< 10 ||| (next &&& 1023)) < 2097152 := by
      have ha : c &&& 1023 ≤ 1023 := Nat.and_le_right
      have hb2 : next &&& 1023 ≤ 1023 := Nat.and_le_right
      have hsl : (c &&& 1023) <<< 10 = (c &&& 1023) * 1024 := by
        rw [Nat.shiftLeft_eq]
      have hor : (c &&& 1023) <<< 10 ||| (next &&& 1023) < 2 ^ 20 := by
        apply Nat.or_lt_two_pow
        · omega
        · omega
      omega
    have hs18 : (65536 + ((c &&& 1023) <<< 10 ||| (next &&& 1023))) >>> 18 < 256 := by
      rw [Nat.shiftRight_eq_div_pow]
      omega
    have hm12 : ((65536 + ((c &&& 1023) <<< 10 ||| (next &&& 1023))) >>> 12) &&& 63 < 256 := by
      have hand : ((65536 + ((c &&& 1023) <<< 10 ||| (next &&& 1023))) >>> 12) &&& 63 ≤ 63 :=
        Nat.and_le_right
      omega
    have hm6 : ((65536 + ((c &&& 1023) <<< 10 ||| (next &&& 1023))) >>> 6) &&& 63 < 256 := by
      have hand : ((65536 + ((c &&& 1023) <<< 10 ||| (next &&& 1023))) >>> 6) &&& 63 ≤ 63 :=
        Nat.and_le_right
      omega
    have hm0 : (65536 + ((c &&& 1023) <<< 10 ||| (next &&& 1023))) &&& 63 < 256 := by
      have hand : (65536 + ((c &&& 1023) <<< 10 ||| (next &&& 1023))) &&& 63 ≤ 63 := Nat.and_le_right
      omega
    rcases List.mem_cons.mp hb with rfl | hb
    · exact or256 _ _ (by omega) hs18
    · rcases List.mem_cons.mp hb with rfl | hb
      · exact or256 _ _ (by omega) hm12
      · rcases List.mem_cons.mp hb with rfl | hb
        · exact or256 _ _ (by omega) hm6
        · rcases List.mem_cons.mp hb with rfl | hb
          · exact or256 _ _ (by omega) hm0
          · exact ih
              (fun x hx => h x (List.mem_cons_of_mem c (List.mem_cons_of_mem next hx))) b hb

/-- Mapping the byte coercion over a list of values below 256 changes
nothing. -/
theorem map_mod_self (l : List Nat) (h : ∀ b ∈ l, b < 256) :
    l.map (fun v => v % 256) = l := by
  induction l with
  | nil => rfl
  | cons x xs ih =>
    simp only [List.map_cons]
    rw [Nat.mod_eq_of_lt (h x (by simp))]
    rw [ih (fun b hb => h b (by simp [hb]))]


/-- Claim C9, counterexample: a string of 256 ASCII characters has 256 code
units, yet the first element of the encoding is 0, because the Uint8Array
construction truncates the length prefix modulo 256; so the prefix is not
the code unit count and differs from the one byte per character count 256. -/
theorem claim_C9_counterexample :
    (List.replicate 256 (65 : Nat)).length = 256 ∧
    (utf8ToBytes (List.replicate 256 65)).get? 0 = some 0 ∧
    (utf8ToBytes (List.replicate 256 65)).get? 0 ≠ some 256 ∧
    (utf8Push (List.replicate 256 65)).length = 256 := by
  refine ⟨by decide, by decide, by decide, by decide⟩

/-- Claim C9, amended: for every string (list of UTF-16 code units) the
encoding is the code unit count reduced modulo 256 followed by the encoded
bytes; the verify command body sits after the 4 byte header; and the prefix
equals the encoded byte count exactly when every character is ASCII and the
string is shorter than 256 code units. -/
theorem claim_C9_theorem (s : List Nat) (hcode : ∀ c ∈ s, c < 0x10000) :
    utf8ToBytes s = (s.length % 256) :: utf8Push s ∧
    VERIFY_APDU.length = 4 ∧
    (VERIFY_APDU ++ utf8ToBytes s).drop 4 = utf8ToBytes s ∧
    ((s.length % 256 = (utf8Push s).length) ↔
      ((∀ c ∈ s, c < 0x80) ∧ s.length < 256)) := by
  have hlt := utf8Push_lt s hcode
  have h1 : utf8ToBytes s = (s.length % 256) :: utf8Push s := by
    simp only [utf8ToBytes, List.map_cons]
    rw [map_mod_self (utf8Push s) hlt]
  refine ⟨h1, by decide, by simp [VERIFY_APDU], ?_⟩
  constructor
  · intro heq
    have hge := utf8Push_length_ge s
    have hmodle : s.length % 256 ≤ s.length := Nat.mod_le _ _
    have hlen : (utf8Push s).length = s.length := by omega
    exact ⟨(utf8Push_length_eq_iff s).mp hlen, by omega⟩
  · rintro ⟨hascii, hlen⟩
    rw [utf8Push_ascii s hascii]
    omega

/-- Claim C9, witness: the theorem applied to the four ASCII digits of a
demo PIN. -/
theorem claim_C9_witness :
    utf8ToBytes [49, 50, 51, 52] =
      (([49, 50, 51, 52] : List Nat).length % 256) :: utf8Push [49, 50, 51, 52] ∧
    VERIFY_APDU.length = 4 ∧
    (VERIFY_APDU ++ utf8ToBytes [49, 50, 51, 52]).drop 4 = utf8ToBytes [49, 50, 51, 52] ∧
    ((([49, 50, 51, 52] : List Nat).length % 256 = (utf8Push [49, 50, 51, 52]).length) ↔
      ((∀ c ∈ ([49, 50, 51, 52] : List Nat), c < 0x80) ∧
        ([49, 50, 51, 52] : List Nat).length < 256)) :=
  claim_C9_theorem [49, 50, 51, 52] (by decide)


/-- The command list produced by one command round starts with the command
itself, followed only by continuation commands. -/
theorem executeCommand_head (command : List Nat) (oracle : List (List Nat))
    (d : List Nat) (cmds rem : List (List Nat))
    (h : executeCommand command oracle = some (d, cmds, rem)) :
    ∃ k, cmds = command :: List.replicate k GET_RESPONSE_APDU := by
  cases oracle with
  | nil => simp [executeCommand] at h
  | cons r rest =>
    simp only [executeCommand] at h
    cases hg : getData rest r with
    | none => rw [hg] at h; simp at h
    | some val =>
      obtain ⟨dd, k, rm⟩ := val
      rw [hg] at h
      simp only [Option.some.injEq, Prod.mk.injEq] at h
      exact ⟨k, h.2.1.symm⟩

/-- The first four bytes of the sign command are the fixed PSO header. -/
theorem take4_sign (a b : List Nat) :
    (PSO_CDS_APDU ++ a ++ b ++ [0]).take 4 = PSO_CDS_APDU := by
  simp only [List.append_assoc]
  rw [show (4 : Nat) = PSO_CDS_APDU.length from rfl, List.take_left]

/-- A successful round for a sign shaped command contributes a transmitted
command whose first four bytes are the PSO header. -/
theorem executeCommand_sign (a b : List Nat) (oracle : List (List Nat))
    (d : List Nat) (cmds rem : List (List Nat))
    (h : executeCommand (PSO_CDS_APDU ++ a ++ b ++ [0]) oracle = some (d, cmds, rem)) :
    ∃ c ∈ cmds, c.take 4 = PSO_CDS_APDU := by
  obtain ⟨k, hc⟩ := executeCommand_head _ _ _ _ _ h
  exact ⟨_, hc ▸ List.mem_cons_self _ _, take4_sign a b⟩

/-- Claim C8: whenever the select response is successful, the PIN dialog
succeeded and no transport failure occurs, the work flow reaches the
compute digital signature command no matter which status word the verify
command returns: the trace of a completed run always contains a command
starting with the PSO header. -/
theorem claim_C8_theorem (sha512 : List Nat → List Nat) (time : Nat)
    (pinBytes : List Nat) (status : List Nat) (oracle1 : List (List Nat))
    (trace : List (List Nat))
    (h90 : status.get? 0 = some 0x90) (h00 : status.get? 1 = some 0x00)
    (hrun : workTrace sha512 time pinBytes (status :: oracle1) = some trace) :
    ∃ c ∈ trace, c.take 4 = PSO_CDS_APDU := by
  simp only [workTrace] at hrun
  rw [if_pos ⟨h90, h00⟩] at hrun
  split at hrun
  · simp at hrun
  rename_i d1 c1 o2 heq1
  split at hrun
  · simp at hrun
  rename_i d2 c2 o3 heq2
  split at hrun
  · simp at hrun
  rename_i d3 c3 o4 heq3
  split at hrun
  · simp at hrun
  rename_i d4 c4 o5 heq4
  split at hrun
  · simp at hrun
  rename_i d5 c5 o6 heq5
  split at hrun
  · simp at hrun
  rename_i d6 c6 o7 heq6
  split at hrun
  · simp at hrun
  rename_i d7 c7 o8 heq7
  simp only [Option.some.injEq] at hrun
  subst hrun
  obtain ⟨c, hcmem, hctake⟩ := executeCommand_sign _ _ _ _ _ _ heq6
  exact ⟨c, by simp [List.mem_cons, List.mem_append, hcmem], hctake⟩


/-- Claim C8, witness: a concrete run in which the verify command returns
the failure status 0x69 0x82 and the sign command is transmitted anyway. -/
theorem claim_C8_witness :
    ∃ c ∈ [SELECT_FILE_APDU, GET_DATA_CARDHOLDER_APDU, GET_DATA_URL_APDU,
        GET_DATA_APPLICATION_RELATED_DATA_APDU, VERIFY_APDU ++ [49, 50, 51, 52],
        GET_DATA_DSC_APDU,
        PSO_CDS_APDU ++ [83] ++ (RSA_SHA1_DIGEST_INFO ++ List.replicate 64 0) ++ [0],
        GET_DATA_DSC_APDU],
      c.take 4 = PSO_CDS_APDU :=
  claim_C8_theorem (fun _ => List.replicate 64 0) 0 [49, 50, 51, 52] [0x90, 0x00]
    [[0x90, 0x00], [0x90, 0x00], [0x90, 0x00], [0x69, 0x82], [0x90, 0x00],
      [0x90, 0x00], [0x90, 0x00]]
    [SELECT_FILE_APDU, GET_DATA_CARDHOLDER_APDU, GET_DATA_URL_APDU,
      GET_DATA_APPLICATION_RELATED_DATA_APDU, VERIFY_APDU ++ [49, 50, 51, 52],
      GET_DATA_DSC_APDU,
      PSO_CDS_APDU ++ [83] ++ (RSA_SHA1_DIGEST_INFO ++ List.replicate 64 0) ++ [0],
      GET_DATA_DSC_APDU]
    (by decide) (by decide) (by decide)

end SmartCardClient
